import Mathlib

/-!
Shallow embedding of the zrepl replication core (package `zfs` and the
`cmd` Puller endpoint) and proofs about the specified properties.

Go strings are modelled as lists of characters (`GoStr`); Go's
`strings.Split`, `strings.Join` and `strings.SplitN` (with a one-character
separator, the only form the code uses) are modelled by `splitChar`,
`joinChar` and `splitNChar`. Subprocess interaction is modelled by
explicit environment records (start error, output lines, wait error),
and the endpoint records which subprocess-backed operations it invoked.
-/

set_option autoImplicit false

namespace Zrepl

/-- A Go string, modelled as its sequence of characters. -/
abbrev GoStr := List Char

/-- Go `strings.Split(s, sep)` for a one-character separator:
splits around every occurrence of `sep`; the result is never empty. -/
def splitChar (sep : Char) : GoStr → List GoStr
  | [] => [[]]
  | c :: rest =>
    let r := splitChar sep rest
    if c = sep then
      [] :: r
    else
      match r with
      | [] => [[c]]
      | h :: t => (c :: h) :: t

/-- Go `strings.Join(parts, sep)` for a one-character separator. -/
def joinChar (sep : Char) : List GoStr → GoStr
  | [] => []
  | [p] => p
  | p :: ps => p ++ sep :: joinChar sep ps

/-- Go `strings.SplitN(s, sep, n)` for a one-character separator:
`n = 0` yields no substrings; otherwise at most `n` substrings, the
last one being the unsplit remainder. -/
def splitNChar (sep : Char) (n : Nat) (s : GoStr) : List GoStr :=
  if n = 0 then []
  else
    let parts := splitChar sep s
    if parts.length ≤ n then parts
    else parts.take (n - 1) ++ [joinChar sep (parts.drop (n - 1))]

/-- `zfs.DatasetPath`: the validated dataset-path value type
(field `comps []string`). -/
structure DatasetPath where
  comps : List GoStr
deriving DecidableEq, Repr

/-- `DatasetPath.ToString`: `strings.Join(p.comps, "/")`. -/
def DatasetPath.ToString (p : DatasetPath) : GoStr :=
  joinChar '/' p.comps

/-- `DatasetPath.Length`. -/
def DatasetPath.Length (p : DatasetPath) : Nat :=
  p.comps.length

/-- The forbidden characters of `zfs.NewDatasetPath`:
the Go constant `FORBIDDEN = "@#|\t <>*"`. -/
def FORBIDDEN : GoStr := ['@', '#', '|', '\t', ' ', '<', '>', '*']

/-- `strings.ContainsAny(s, chars)`. -/
def containsAny (s : GoStr) (chars : GoStr) : Bool :=
  s.any (fun c => chars.contains c)

/-- `zfs.NewDatasetPath`: the empty string yields the empty path; a
string containing a forbidden character or ending in a slash is
rejected; otherwise the components are the slash-split pieces. -/
def NewDatasetPath (s : GoStr) : Except String DatasetPath :=
  if s = [] then .ok ⟨[]⟩
  else if containsAny s FORBIDDEN then .error "contains forbidden characters"
  else
    let comps := splitChar '/' s
    if comps.getLastD [] = [] then .error "must not end with a slash"
    else .ok ⟨comps⟩

/-- Result of a Go slice expression `xs[n:]` with an `int` index:
defined for `0 ≤ n ≤ len(xs)`, a runtime panic (`none`) otherwise. -/
def goSliceFrom (xs : List GoStr) (n : Int) : Option (List GoStr) :=
  if 0 ≤ n ∧ n ≤ (xs.length : Int) then some (xs.drop n.toNat) else none

/-- `DatasetPath.TrimNPrefixComps`: clamps `n` from above to the length,
returns unchanged for `n = 0`, and otherwise evaluates the slice
expression `p.comps[n:]` (which panics for negative `n`). -/
def DatasetPath.TrimNPrefixComps (p : DatasetPath) (n : Int) : Option DatasetPath :=
  let n := if (p.comps.length : Int) < n then (p.comps.length : Int) else n
  if n = 0 then some p
  else (goSliceFrom p.comps n).map DatasetPath.mk

-- Basic lemmas about splitChar / joinChar

theorem splitChar_ne_nil (sep : Char) (s : GoStr) : splitChar sep s ≠ [] := by
  cases s with
  | nil => simp [splitChar]
  | cons c rest =>
    simp only [splitChar]
    split
    · simp
    · cases splitChar sep rest with
      | nil => simp
      | cons h t => simp

theorem splitChar_length (sep : Char) (s : GoStr) :
    (splitChar sep s).length = s.count sep + 1 := by
  induction s with
  | nil => simp [splitChar]
  | cons c rest ih =>
    by_cases hc : c = sep
    · simp [splitChar, if_pos hc, hc, List.count_cons, ih]
    · simp only [splitChar, if_neg hc]
      rcases hr : splitChar sep rest with _ | ⟨h, t⟩
      · exact absurd hr (splitChar_ne_nil sep rest)
      · rw [hr] at ih
        simp only [List.length_cons] at ih ⊢
        have : rest.count sep = (c :: rest).count sep := by
          simp [List.count_cons, Ne.symm hc]
        omega

theorem splitChar_append_sep (sep : Char) (xs : GoStr) :
    splitChar sep (xs ++ [sep]) = splitChar sep xs ++ [[]] := by
  induction xs with
  | nil => simp [splitChar]
  | cons c rest ih =>
    by_cases hc : c = sep
    · simp only [List.cons_append, splitChar, if_pos hc, List.append_eq, ih]
    · rcases hr : splitChar sep rest with _ | ⟨h, t⟩
      · exact absurd hr (splitChar_ne_nil sep rest)
      · simp only [List.cons_append, splitChar, if_neg hc, List.append_eq,
          ih, hr]

theorem splitChar_not_mem (sep : Char) (s : GoStr) (hs : sep ∉ s) :
    splitChar sep s = [s] := by
  induction s with
  | nil => simp [splitChar]
  | cons c rest ih =>
    simp only [List.mem_cons, not_or] at hs
    simp only [splitChar, if_neg (Ne.symm hs.1), ih hs.2]

theorem splitChar_append_sep_cons (sep : Char) (p rest : GoStr) (hp : sep ∉ p) :
    splitChar sep (p ++ sep :: rest) = p :: splitChar sep rest := by
  induction p with
  | nil => simp [splitChar]
  | cons c q ih =>
    simp only [List.mem_cons, not_or] at hp
    simp only [List.cons_append, splitChar, List.append_eq, ih hp.2,
      if_neg (Ne.symm hp.1)]

theorem splitChar_joinChar (sep : Char) (parts : List GoStr)
    (hne : parts ≠ []) (hsep : ∀ p ∈ parts, sep ∉ p) :
    splitChar sep (joinChar sep parts) = parts := by
  induction parts with
  | nil => exact absurd rfl hne
  | cons p ps ih =>
    cases ps with
    | nil =>
      simp only [joinChar]
      exact splitChar_not_mem sep p (hsep p (by simp))
    | cons q qs =>
      simp only [joinChar]
      rw [splitChar_append_sep_cons sep p _ (hsep p (by simp))]
      rw [ih (by simp) (fun r hr => hsep r (by simp [hr]))]

theorem mem_joinChar (sep : Char) (parts : List GoStr) (c : Char)
    (hc : c ∈ joinChar sep parts) : c = sep ∨ ∃ p ∈ parts, c ∈ p := by
  induction parts with
  | nil => simp [joinChar] at hc
  | cons p ps ih =>
    cases ps with
    | nil =>
      simp only [joinChar] at hc
      exact Or.inr ⟨p, by simp, hc⟩
    | cons q qs =>
      simp only [joinChar, List.mem_append, List.mem_cons] at hc
      rcases hc with hc | hc | hc
      · exact Or.inr ⟨p, by simp, hc⟩
      · exact Or.inl hc
      · rcases ih hc with h | ⟨r, hr, hcr⟩
        · exact Or.inl h
        · exact Or.inr ⟨r, by simp [List.mem_cons] at hr ⊢; tauto, hcr⟩

theorem joinChar_ne_nil_of_head_ne_nil (sep : Char) (p : GoStr) (ps : List GoStr)
    (hp : p ≠ []) : joinChar sep (p :: ps) ≠ [] := by
  cases ps with
  | nil => simpa [joinChar] using hp
  | cons q qs => simp [joinChar]

/-! ## The process layer: `ZFSList` and the scanner

`ZFSList` runs `zfs list -H -p -o <props>` and scans its standard output
line by line with a `bufio.Scanner` whose buffer is capped at 1024 bytes
(`s.Buffer(make([]byte, 1024), 0)`). The subprocess is abstracted by a
`ProcEnv`: whether `cmd.Start()` fails, the lines the process writes to
standard output, whether `cmd.Wait()` fails, and the captured stderr. -/

/-- Error of the `bufio.Scanner`: a line longer than the buffer cap
makes `Scan` stop and `s.Err()` return `bufio.ErrTooLong`. -/
inductive ScanErr
  | tooLong
deriving DecidableEq, Repr

/-- The scanner: yields the lines in order until (if ever) it meets a
line longer than `maxLen` bytes, at which point it stops with
`tooLong`; the offending line and everything after it are not yielded. -/
def scanLines (maxLen : Nat) : List GoStr → List GoStr × Option ScanErr
  | [] => ([], none)
  | l :: ls =>
    if l.length > maxLen then ([], some .tooLong)
    else
      let r := scanLines maxLen ls
      (l :: r.1, r.2)

/-- The errors `ZFSList` can produce: a `cmd.Start()` failure, the
`errors.New("unexpected output")` protocol violation, or the structured
`ZFSError{Stderr, WaitErr}` built from a `cmd.Wait()` failure. -/
inductive ZFSListError
  | startFailure (msg : String)
  | unexpectedOutput
  | zfsError (stderr : GoStr) (waitErr : String)
deriving DecidableEq, Repr

/-- Abstraction of the `zfs list` subprocess as `ZFSList` observes it. -/
structure ProcEnv where
  startErr : Option String
  outputLines : List GoStr
  waitErr : Option String
  stderr : GoStr

/-- The `for s.Scan()` body of `ZFSList`: each scanned line is split by
`strings.SplitN(line, "\t", n)` with `n = len(properties)`; a field
count different from `n` sets `err = errors.New("unexpected output")`
and returns immediately — via the named return values, so the rows
accumulated so far travel along with the error. -/
def zfsListLoop (n : Nat) : List GoStr → List (List GoStr) × Option ZFSListError
  | [] => ([], none)
  | l :: ls =>
    let fields := splitNChar '\t' n l
    if fields.length ≠ n then ([], some .unexpectedOutput)
    else
      let r := zfsListLoop n ls
      (fields :: r.1, r.2)

/-- `zfs.ZFSList`, returning the Go pair `(res, err)`. Mirrors the
source exactly: a `Start` failure returns at once; the scan loop runs
(the scanner's own error `s.Err()` is never consulted, so `scanned.2`
is dropped); a loop error returns the accumulated rows plus the error
without waiting; a `Wait` failure returns `nil, ZFSError{...}`. -/
def ZFSList (properties : List String) (env : ProcEnv) :
    List (List GoStr) × Option ZFSListError :=
  match env.startErr with
  | some e => ([], some (.startFailure e))
  | none =>
    let scanned := scanLines 1024 env.outputLines
    match zfsListLoop properties.length scanned.1 with
    | (acc, some e) => (acc, some e)
    | (acc, none) =>
      match env.waitErr with
      | some w => ([], some (.zfsError env.stderr w))
      | none => (acc, none)

/-! ## The process layer: `ZFSSet` and `ZFSProperties.appendArgs`

The entries of the Go map `ZFSProperties.m` are modelled as an
association list; statements quantify over all lists, which covers
every iteration order of the map. -/

/-- Error of `ZFSSet`: the `appendArgs` validation error, a `Start`
failure, or the structured `ZFSError` from a `Wait` failure. -/
inductive ZFSSetError
  | propDelimiter
  | startFailure (msg : String)
  | zfsError (stderr : GoStr) (waitErr : String)
deriving DecidableEq, Repr

/-- `ZFSProperties.appendArgs`: appends one `name=value` token per
entry to `args`, failing if a property name contains the delimiter
`=` (`strings.Contains(prop, "=")`). -/
def appendArgs : List (GoStr × GoStr) → List GoStr → Except ZFSSetError (List GoStr)
  | [], args => .ok args
  | (prop, val) :: rest, args =>
    if '=' ∈ prop then .error .propDelimiter
    else appendArgs rest (args ++ [prop ++ '=' :: val])

/-- Abstraction of the `zfs set` subprocess. -/
structure SetEnv where
  startErr : Option String
  waitErr : Option String
  stderr : GoStr

/-- `zfs.ZFSSet`, returning the Go error together with a flag telling
whether `exec.Command` was reached (i.e. whether a subprocess was
created and started). The argument vector starts as `["set"]`, takes
the rendered properties, then the target path. -/
def ZFSSet (env : SetEnv) (fs : DatasetPath) (props : List (GoStr × GoStr)) :
    Option ZFSSetError × Bool :=
  match appendArgs props [['s', 'e', 't']] with
  | .error e => (some e, false)
  | .ok args =>
    let _args := args ++ [fs.ToString]
    match env.startErr with
    | some e => (some (.startFailure e), true)
    | none =>
      match env.waitErr with
      | some w => (some (.zfsError env.stderr w), true)
      | none => (none, true)

/-! ## The replication endpoint (`cmd.Puller`)

The Puller's collaborators that live outside this code
(`DatasetMapFilter.InvertedFilter`, the inverted filter's `Filter`,
`zfs.ZFSGetReceiveResumeToken`, `zfs.ZFSRecvWriter`,
`zfs.ZFSListFilesystemVersions`) are abstracted as an environment of
oracles, and each endpoint call additionally reports the list of
subprocess-backed ZFS operations it invoked, in order. -/

/-- `replication.Filesystem` (the fields the Puller fills in). -/
structure Filesystem where
  Path : GoStr
  ResumeToken : GoStr
deriving DecidableEq, Repr

/-- `zfs.ZFSListResult`: one item received from the `ZFSListChan`
channel. -/
structure ZFSListResult where
  Fields : List GoStr
  Err : Option String

/-- The error shapes a Puller call can surface. `filteredError` is the
distinguished `replication.NewFilteredError(fs)`; everything else is a
generic error (`NewDatasetPath` failure, failures of the filter
machinery or of a delegated ZFS operation, and the literal
`fmt.Errorf` token-mismatch error of `Puller.Receive`). -/
inductive PullerError
  | pathError (msg : String)
  | invertedFilterFailure
  | filterFailure (msg : String)
  | filteredError (fs : GoStr)
  | zfsOpFailure (msg : String)
  | tokenMismatch
deriving DecidableEq, Repr

/-- The subprocess-backed ZFS operations an endpoint call can invoke. -/
inductive ZfsOp
  | listFilesystemVersions (dp : DatasetPath)
  | getReceiveResumeToken (dp : DatasetPath)
  | recvWriter (dp : DatasetPath)
deriving DecidableEq, Repr

/-- Oracles for the Puller's collaborators: whether
`Mapping.InvertedFilter()` succeeds, the inverted filter's
`Filter(dp) (pass, err)` decision, and the outcomes of
`ZFSGetReceiveResumeToken`, `ZFSRecvWriter` and
`ZFSListFilesystemVersions` (versions kept opaque as strings). -/
structure PullerEnv where
  invertedFilterOk : Bool
  filter : DatasetPath → Except String Bool
  localToken : DatasetPath → Except String GoStr
  recvWriterRes : DatasetPath → Except String Unit
  listVersionsRes : DatasetPath → Except String (List GoStr)

/-- `Puller.Receive`: parse the path, consult the inverted filter, on a
non-empty request token read the local `receive_resume_token` and
require exact equality, then start `ZFSRecvWriter`. The second
component lists the ZFS operations invoked. -/
def Puller.Receive (env : PullerEnv) (fsName : GoStr) (resumeToken : GoStr) :
    Except PullerError Unit × List ZfsOp :=
  match NewDatasetPath fsName with
  | .error e => (.error (.pathError e), [])
  | .ok dp =>
    if env.invertedFilterOk = false then (.error .invertedFilterFailure, [])
    else
      match env.filter dp with
      | .error e => (.error (.filterFailure e), [])
      | .ok pass =>
        if pass = false then (.error (.filteredError fsName), [])
        else if resumeToken ≠ [] then
          match env.localToken dp with
          | .error e => (.error (.zfsOpFailure e), [.getReceiveResumeToken dp])
          | .ok localToken =>
            if localToken ≠ resumeToken then
              (.error .tokenMismatch, [.getReceiveResumeToken dp])
            else
              match env.recvWriterRes dp with
              | .error e =>
                (.error (.zfsOpFailure e), [.getReceiveResumeToken dp, .recvWriter dp])
              | .ok _ => (.ok (), [.getReceiveResumeToken dp, .recvWriter dp])
        else
          match env.recvWriterRes dp with
          | .error e => (.error (.zfsOpFailure e), [.recvWriter dp])
          | .ok _ => (.ok (), [.recvWriter dp])

/-- `Puller.ListFilesystemVersions`: parse the path, consult the
inverted filter, then delegate to `ZFSListFilesystemVersions`. -/
def Puller.ListFilesystemVersions (env : PullerEnv) (fsName : GoStr) :
    Except PullerError (List GoStr) × List ZfsOp :=
  match NewDatasetPath fsName with
  | .error e => (.error (.pathError e), [])
  | .ok dp =>
    if env.invertedFilterOk = false then (.error .invertedFilterFailure, [])
    else
      match env.filter dp with
      | .error e => (.error (.filterFailure e), [])
      | .ok pass =>
        if pass = false then (.error (.filteredError fsName), [])
        else
          match env.listVersionsRes dp with
          | .error e => (.error (.zfsOpFailure e), [.listFilesystemVersions dp])
          | .ok vs => (.ok vs, [.listFilesystemVersions dp])

/-- The `for res := range ch` loop of `Puller.ListFilesystems`. An item
with `Err` set aborts the whole call. For a successful item the local
`token` is computed (`"-"` is rewritten to the empty string) but the
appended record is built from the raw `res.Fields[1]`, exactly as in
the source; the shadowing `_token` mirrors that dead store. Out-of-range
field access is a panic (`none`). -/
def pullerListLoop : List ZFSListResult → Option (Except PullerError (List Filesystem))
  | [] => some (.ok [])
  | r :: rs =>
    match r.Err with
    | some e => some (.error (.zfsOpFailure e))
    | none =>
      match r.Fields[1]?, r.Fields[0]? with
      | some f1, some f0 =>
        let token := f1
        let _token := if token = ['-'] then [] else token
        (pullerListLoop rs).map (fun res =>
          res.map (fun fss => ⟨f0, f1⟩ :: fss))
      | _, _ => none

/-- `Puller.ListFilesystems`, over the items `ZFSListChan` delivered for
the properties `["name", "receive_resume_token"]`. `none` models a
panic; otherwise the Go pair `(fss, err)` is an `Except`. -/
def Puller.ListFilesystems (invertedFilterOk : Bool)
    (results : List ZFSListResult) :
    Option (Except PullerError (List Filesystem)) :=
  if invertedFilterOk = false then some (.error .invertedFilterFailure)
  else pullerListLoop results

/-! ## Further helper lemmas -/

theorem containsAny_eq_false_iff (s chars : GoStr) :
    containsAny s chars = false ↔ ∀ c ∈ s, c ∉ chars := by
  simp only [containsAny, List.any_eq_false]
  constructor
  · intro h c hc hmem
    exact h c hc (by simpa [List.elem_iff] using hmem)
  · intro h c hc hcont
    exact h c hc (by simpa [List.elem_iff] using hcont)

theorem getLastD_mem {α : Type} (l : List α) (a : α) (h : l ≠ []) :
    l.getLastD a ∈ l := by
  induction l with
  | nil => exact absurd rfl h
  | cons b bs ih =>
    cases bs with
    | nil => simp [List.getLastD]
    | cons c cs =>
      have := ih (by simp)
      simp only [List.getLastD] at this ⊢
      exact List.mem_cons_of_mem b this

deriving instance DecidableEq for Except

/-! ## The claims -/

/-- C8: `NewDatasetPath` applied to the empty string succeeds and
yields the empty path with length 0; it fails with a validation error
for every string containing one of the characters `@ # | <tab> <space>
< > *`, and for every (automatically non-empty) string of the form
`xs ++ "/"`, i.e. every non-empty string ending in a slash. -/
theorem C8_newDatasetPath_validation :
    (NewDatasetPath [] = .ok ⟨[]⟩ ∧ DatasetPath.Length ⟨[]⟩ = 0) ∧
    (∀ s : GoStr, (∃ c ∈ s, c ∈ FORBIDDEN) →
      ∃ msg, NewDatasetPath s = .error msg) ∧
    (∀ xs : GoStr, containsAny (xs ++ ['/']) FORBIDDEN = false →
      NewDatasetPath (xs ++ ['/']) = .error "must not end with a slash") ∧
    (∀ xs : GoStr, ∃ msg, NewDatasetPath (xs ++ ['/']) = .error msg) := by
  refine ⟨⟨rfl, rfl⟩, ?_, ?_, ?_⟩
  · intro s ⟨c, hc, hcf⟩
    have hne : s ≠ [] := by rintro rfl; simp at hc
    have hca : containsAny s FORBIDDEN = true := by
      rcases Bool.eq_false_or_eq_true (containsAny s FORBIDDEN) with h | h
      · exact h
      · exact absurd hcf ((containsAny_eq_false_iff s FORBIDDEN).mp h c hc)
    refine ⟨"contains forbidden characters", ?_⟩
    simp [NewDatasetPath, hne, hca]
  · intro xs hca
    have hne : xs ++ ['/'] ≠ [] := by simp
    have hsplit : splitChar '/' (xs ++ ['/']) = splitChar '/' xs ++ [[]] :=
      splitChar_append_sep '/' xs
    simp [NewDatasetPath, hne, hca, hsplit, List.getLastD_concat]
  · intro xs
    rcases Bool.eq_false_or_eq_true (containsAny (xs ++ ['/']) FORBIDDEN) with h | h
    · have hne : xs ++ ['/'] ≠ [] := by simp
      exact ⟨"contains forbidden characters", by simp [NewDatasetPath, hne, h]⟩
    · have hne : xs ++ ['/'] ≠ [] := by simp
      have hsplit : splitChar '/' (xs ++ ['/']) = splitChar '/' xs ++ [[]] :=
        splitChar_append_sep '/' xs
      exact ⟨"must not end with a slash", by
        simp [NewDatasetPath, hne, h, hsplit, List.getLastD_concat]⟩

/-- C8 witness: the validation facts at concrete inputs: `"a@b"`
contains a forbidden character and is rejected, and `"a/"` ends in a
slash and is rejected. -/
theorem C8_witness :
    (∃ c ∈ ['a', '@', 'b'], c ∈ FORBIDDEN) ∧
    (∃ msg, NewDatasetPath ['a', '@', 'b'] = .error msg) ∧
    (∃ msg, NewDatasetPath (['a'] ++ ['/']) = .error msg) :=
  ⟨by decide, C8_newDatasetPath_validation.2.1 ['a', '@', 'b'] (by decide),
    C8_newDatasetPath_validation.2.2.2 ['a']⟩

/-- C7 counterexample: parsing the raw string `"/a"` succeeds (only the
last component is checked for emptiness), yet the resulting path has
the empty string as its first component, falsifying the claim that
every successfully parsed path has only non-empty components. -/
theorem C7_counterexample :
    NewDatasetPath ['/', 'a'] = .ok ⟨[[], ['a']]⟩ ∧
    ([] : GoStr) ∈ (DatasetPath.mk [[], ['a']]).comps :=
  ⟨rfl, by decide⟩

/-- C7 amended: a successful `NewDatasetPath` guarantees only that the
empty input yields the zero-component path and that a non-empty input
yields a non-empty component list whose last component is non-empty
(i.e. the string did not end in a slash); components other than the
last may be empty. -/
theorem C7_last_component_nonempty (s : GoStr) (p : DatasetPath)
    (h : NewDatasetPath s = .ok p) :
    (s = [] → p.comps = []) ∧
    (s ≠ [] → p.comps ≠ [] ∧ p.comps.getLastD [] ≠ []) := by
  constructor
  · rintro rfl
    simp only [NewDatasetPath, if_pos rfl] at h
    cases h
    rfl
  · intro hs
    simp only [NewDatasetPath, if_neg hs] at h
    rcases Bool.eq_false_or_eq_true (containsAny s FORBIDDEN) with hca | hca
    · simp [hca] at h
    · simp only [hca, Bool.false_eq_true, if_false] at h
      by_cases hlast : (splitChar '/' s).getLastD [] = []
      · rw [if_pos hlast] at h
        cases h
      · rw [if_neg hlast] at h
        cases h
        exact ⟨splitChar_ne_nil '/' s, hlast⟩

/-- C7 witness: the amended statement applied to the concrete input
`"a/b"`, whose parse succeeds with last component `"b"`. -/
theorem C7_witness :
    (DatasetPath.mk [['a'], ['b']]).comps ≠ [] ∧
    (DatasetPath.mk [['a'], ['b']]).comps.getLastD [] ≠ [] :=
  (C7_last_component_nonempty ['a', '/', 'b'] ⟨[['a'], ['b']]⟩ rfl).2 (by decide)

/-- C6 counterexample: the single-component sequence `["a/b"]` is
non-empty and free of all forbidden characters (`/` is not forbidden),
yet `parse(toString(path))` yields the two-component path `a/b`,
falsifying the claimed round-trip. -/
theorem C6_counterexample :
    (∀ c ∈ (DatasetPath.mk [['a', '/', 'b']]).comps,
      c ≠ [] ∧ containsAny c FORBIDDEN = false) ∧
    NewDatasetPath (DatasetPath.ToString ⟨[['a', '/', 'b']]⟩) ≠
      .ok ⟨[['a', '/', 'b']]⟩ :=
  ⟨by decide, by decide⟩

/-- C6 amended: the round-trip `parse(toString(p)) = p` holds for every
component sequence whose components are non-empty, free of the
forbidden characters, and additionally free of the separator `/`. -/
theorem C6_roundtrip (comps : List GoStr)
    (hcomps : ∀ c ∈ comps, c ≠ [] ∧ containsAny c FORBIDDEN = false ∧ '/' ∉ c) :
    NewDatasetPath (DatasetPath.ToString ⟨comps⟩) = .ok ⟨comps⟩ := by
  cases comps with
  | nil => rfl
  | cons p ps =>
    have hp := hcomps p (by simp)
    have hne : joinChar '/' (p :: ps) ≠ [] :=
      joinChar_ne_nil_of_head_ne_nil '/' p ps hp.1
    have hca : containsAny (joinChar '/' (p :: ps)) FORBIDDEN = false := by
      rw [containsAny_eq_false_iff]
      intro c hc hcf
      rcases mem_joinChar '/' (p :: ps) c hc with h | ⟨q, hq, hcq⟩
      · subst h
        revert hcf
        decide
      · exact absurd hcf
          ((containsAny_eq_false_iff q FORBIDDEN).mp (hcomps q hq).2.1 c hcq)
    have hsplit : splitChar '/' (joinChar '/' (p :: ps)) = p :: ps :=
      splitChar_joinChar '/' (p :: ps) (by simp) (fun q hq => (hcomps q hq).2.2)
    have hlast : (p :: ps).getLastD [] ≠ [] :=
      (hcomps _ (getLastD_mem (p :: ps) [] (by simp))).1
    have hlast' : ¬(p :: ps).getLast?.getD [] = [] := by
      rw [← List.getLastD_eq_getLast?]
      exact hlast
    simp only [DatasetPath.ToString]
    simp [NewDatasetPath, hne, hca, hsplit, hlast']

/-- C6 witness: the amended round-trip at the concrete two-component
path `t/d`. -/
theorem C6_witness :
    NewDatasetPath (DatasetPath.ToString ⟨[['t'], ['d']]⟩) = .ok ⟨[['t'], ['d']]⟩ :=
  C6_roundtrip [['t'], ['d']] (by decide)

/-- C10: for every `n ≥ 0`, `TrimNPrefixComps` completes and keeps the
last `max(length(p) - n, 0)` components (the clamp applies); for every
`n < 0` the clamp does not apply and the slice expression
`p.comps[n:]` is an out-of-range access, i.e. a panic (`none`). -/
theorem C10_trimN_negative_panics (p : DatasetPath) (n : Int) :
    (0 ≤ n → p.TrimNPrefixComps n = some ⟨p.comps.drop n.toNat⟩ ∧
      (p.comps.drop n.toNat).length = p.comps.length - n.toNat) ∧
    (n < 0 → p.TrimNPrefixComps n = none) := by
  obtain ⟨comps⟩ := p
  constructor
  · intro hn
    refine ⟨?_, by simp⟩
    simp only [DatasetPath.TrimNPrefixComps, goSliceFrom]
    by_cases hlt : (comps.length : Int) < n
    · rw [if_pos hlt]
      by_cases hz : (comps.length : Int) = 0
      · rw [if_pos hz]
        have hc : comps = [] := List.length_eq_zero.mp (by exact_mod_cast hz)
        subst hc
        simp
      · rw [if_neg hz, if_pos ⟨Int.ofNat_nonneg _, le_refl _⟩]
        simp only [Option.map_some']
        have hlen : comps.length ≤ n.toNat := by omega
        rw [show ((comps.length : Int)).toNat = comps.length from rfl,
          List.drop_length, List.drop_eq_nil_of_le hlen]
    · rw [if_neg hlt]
      by_cases hz : n = 0
      · rw [if_pos hz]
        subst hz
        simp
      · rw [if_neg hz, if_pos ⟨hn, by omega⟩]
        simp only [Option.map_some']
  · intro hneg
    simp only [DatasetPath.TrimNPrefixComps, goSliceFrom]
    rw [if_neg (show ¬((comps.length : Int) < n) by omega)]
    rw [if_neg (show ¬(n = 0) by omega)]
    rw [if_neg (show ¬(0 ≤ n ∧ n ≤ (comps.length : Int)) by omega)]
    rfl

/-- C10 witness: both halves at concrete inputs: trimming one leading
component of `a/b/c`, and the panic at `n = -1`. -/
theorem C10_witness :
    DatasetPath.TrimNPrefixComps ⟨[['a'], ['b'], ['c']]⟩ 1 = some ⟨[['b'], ['c']]⟩ ∧
    DatasetPath.TrimNPrefixComps ⟨[['a'], ['b'], ['c']]⟩ (-1) = none :=
  ⟨((C10_trimN_negative_panics ⟨[['a'], ['b'], ['c']]⟩ 1).1 (by decide)).1.trans
      (by decide),
    (C10_trimN_negative_panics ⟨[['a'], ['b'], ['c']]⟩ (-1)).2 (by decide)⟩

theorem appendArgs_error_of_bad_key (props : List (GoStr × GoStr))
    (args : List GoStr) (h : ∃ kv ∈ props, '=' ∈ kv.1) :
    appendArgs props args = .error .propDelimiter := by
  induction props generalizing args with
  | nil => simp at h
  | cons kv rest ih =>
    obtain ⟨p, v⟩ := kv
    by_cases hp : '=' ∈ p
    · simp [appendArgs, hp]
    · simp only [appendArgs, if_neg hp]
      rcases h with ⟨kv', hmem, hkv'⟩
      rcases List.mem_cons.mp hmem with rfl | hmem'
      · exact absurd hkv' hp
      · exact ih _ ⟨kv', hmem', hkv'⟩

theorem appendArgs_ok (props : List (GoStr × GoStr)) (args : List GoStr)
    (h : ∀ kv ∈ props, '=' ∉ kv.1) :
    appendArgs props args =
      .ok (args ++ props.map (fun kv => kv.1 ++ '=' :: kv.2)) := by
  induction props generalizing args with
  | nil => simp [appendArgs]
  | cons kv rest ih =>
    obtain ⟨p, v⟩ := kv
    have hp : '=' ∉ p := h (p, v) (by simp)
    simp only [appendArgs, if_neg hp]
    rw [ih _ (fun kv' hkv' => h kv' (by simp [hkv']))]
    simp

/-- C9: a property set holding a key that contains the delimiter `=`
makes `ZFSSet` fail with the `appendArgs` validation error before any
subprocess is created (the invocation flag is `false`); a property set
whose keys are `=`-free renders into exactly one `name=value` token
per entry, in order, appended to the argument vector. The entry list
ranges over every iteration order of the Go map. -/
theorem C9_zfsSet_delimiter_guard (env : SetEnv) (fs : DatasetPath)
    (props : List (GoStr × GoStr)) :
    ((∃ kv ∈ props, '=' ∈ kv.1) →
      ZFSSet env fs props = (some .propDelimiter, false)) ∧
    ((∀ kv ∈ props, '=' ∉ kv.1) → ∀ args,
      appendArgs props args =
        .ok (args ++ props.map (fun kv => kv.1 ++ '=' :: kv.2))) := by
  constructor
  · intro h
    simp [ZFSSet, appendArgs_error_of_bad_key props _ h]
  · intro h args
    exact appendArgs_ok props args h

/-- C9 witness: the key `"a="` is rejected with no subprocess started,
and the clean entry `("a", "v")` renders to the token `"a=v"` after
the initial `"set"` argument. -/
theorem C9_witness :
    ZFSSet ⟨none, none, []⟩ ⟨[['t']]⟩ [(['a', '='], ['v'])] =
      (some .propDelimiter, false) ∧
    appendArgs [(['a'], ['v'])] [['s', 'e', 't']] =
      .ok [['s', 'e', 't'], ['a', '=', 'v']] := by
  constructor
  · exact (C9_zfsSet_delimiter_guard ⟨none, none, []⟩ ⟨[['t']]⟩ _).1
      ⟨(['a', '='], ['v']), by simp, by decide⟩
  · exact ((C9_zfsSet_delimiter_guard ⟨none, none, []⟩ ⟨[['t']]⟩ _).2
      (by decide) [['s', 'e', 't']]).trans (by decide)

/-- C1: for a Receive request with a non-empty resume token whose path
parses and which passes the inverted filter, the local resume token is
read; `ZFSRecvWriter` is invoked iff the local read succeeded with a
token exactly equal to the requested one; on any inequality (an empty
local token included, since the requested token is non-empty) the call
returns the token-mismatch error and the receive subprocess is never
invoked. -/
theorem C1_receive_resume_token_guard (env : PullerEnv) (fsName tok : GoStr)
    (dp : DatasetPath) (htok : tok ≠ [])
    (hdp : NewDatasetPath fsName = .ok dp)
    (hinv : env.invertedFilterOk = true)
    (hpass : env.filter dp = .ok true) :
    ZfsOp.getReceiveResumeToken dp ∈ (Puller.Receive env fsName tok).2 ∧
    (ZfsOp.recvWriter dp ∈ (Puller.Receive env fsName tok).2 ↔
      env.localToken dp = .ok tok) ∧
    (∀ t, env.localToken dp = .ok t → t ≠ tok →
      (Puller.Receive env fsName tok).1 = .error .tokenMismatch ∧
      ZfsOp.recvWriter dp ∉ (Puller.Receive env fsName tok).2) := by
  rcases hl : env.localToken dp with e | t0
  · have hres : Puller.Receive env fsName tok =
        (.error (.zfsOpFailure e), [.getReceiveResumeToken dp]) := by
      simp only [Puller.Receive, hdp, hinv, hpass, hl]
      rw [if_pos htok]
      simp
    rw [hres]
    refine ⟨by simp, by simp, ?_⟩
    intro t ht
    cases ht
  · by_cases heq : t0 = tok
    · subst heq
      rcases hw : env.recvWriterRes dp with e | u
      · have hres : Puller.Receive env fsName t0 =
            (.error (.zfsOpFailure e),
              [.getReceiveResumeToken dp, .recvWriter dp]) := by
          simp only [Puller.Receive, hdp, hinv, hpass, hl, hw]
          rw [if_pos htok]
          simp
        rw [hres]
        refine ⟨by simp, by simp, ?_⟩
        intro t ht htne
        cases ht
        exact absurd rfl htne
      · have hres : Puller.Receive env fsName t0 =
            (.ok (), [.getReceiveResumeToken dp, .recvWriter dp]) := by
          simp only [Puller.Receive, hdp, hinv, hpass, hl, hw]
          rw [if_pos htok]
          simp
        rw [hres]
        refine ⟨by simp, by simp, ?_⟩
        intro t ht htne
        cases ht
        exact absurd rfl htne
    · have hres : Puller.Receive env fsName tok =
          (.error .tokenMismatch, [.getReceiveResumeToken dp]) := by
        simp only [Puller.Receive, hdp, hinv, hpass, hl]
        rw [if_pos htok, if_pos heq]
        simp
      rw [hres]
      refine ⟨by simp, by simp [heq], ?_⟩
      intro t ht htne
      exact ⟨rfl, by simp⟩

/-- Environment for the C1 witness: everything passes, and the local
resume token of every path is `"xyz"`. -/
def envAccept : PullerEnv :=
  { invertedFilterOk := true
    filter := fun _ => .ok true
    localToken := fun _ => .ok ['x', 'y', 'z']
    recvWriterRes := fun _ => .ok ()
    listVersionsRes := fun _ => .ok [] }

/-- C1 witness: requesting token `"abc"` while the local token is
`"xyz"` yields the token-mismatch error and no receive invocation. -/
theorem C1_witness :
    (Puller.Receive envAccept ['t', 'k'] ['a', 'b', 'c']).1 =
      .error .tokenMismatch ∧
    ZfsOp.recvWriter ⟨[['t', 'k']]⟩ ∉
      (Puller.Receive envAccept ['t', 'k'] ['a', 'b', 'c']).2 :=
  (C1_receive_resume_token_guard envAccept ['t', 'k'] ['a', 'b', 'c']
    ⟨[['t', 'k']]⟩ (by decide) rfl rfl rfl).2.2 ['x', 'y', 'z'] rfl (by decide)

/-- C2: when the inverted filter rejects the parsed path with no
error, both `Puller.ListFilesystemVersions` and `Puller.Receive`
return the distinguished filtered error built from the raw path
string, and invoke no subprocess-backed ZFS operation. -/
theorem C2_filtered_error_no_subprocess (env : PullerEnv) (fsName : GoStr)
    (dp : DatasetPath) (hdp : NewDatasetPath fsName = .ok dp)
    (hinv : env.invertedFilterOk = true)
    (hreject : env.filter dp = .ok false) :
    Puller.ListFilesystemVersions env fsName =
      (.error (.filteredError fsName), []) ∧
    ∀ tok, Puller.Receive env fsName tok =
      (.error (.filteredError fsName), []) := by
  constructor
  · simp only [Puller.ListFilesystemVersions, hdp, hinv, hreject]
    simp
  · intro tok
    simp only [Puller.Receive, hdp, hinv, hreject]
    simp

/-- Environment for the C2 witness: the inverted filter rejects every
path with no error. -/
def envReject : PullerEnv :=
  { invertedFilterOk := true
    filter := fun _ => .ok false
    localToken := fun _ => .ok []
    recvWriterRes := fun _ => .ok ()
    listVersionsRes := fun _ => .ok [] }

/-- C2 witness: both calls on the concrete path `"tk"` return the
filtered error and an empty invocation list. -/
theorem C2_witness :
    Puller.ListFilesystemVersions envReject ['t', 'k'] =
      (.error (.filteredError ['t', 'k']), []) ∧
    Puller.Receive envReject ['t', 'k'] ['a'] =
      (.error (.filteredError ['t', 'k']), []) :=
  ⟨(C2_filtered_error_no_subprocess envReject ['t', 'k'] ⟨[['t', 'k']]⟩
      rfl rfl rfl).1,
    (C2_filtered_error_no_subprocess envReject ['t', 'k'] ⟨[['t', 'k']]⟩
      rfl rfl rfl).2 ['a']⟩

/-- C3 (code behavior): a successful listing row with fields
`["tank", "-"]` produces the record with `ResumeToken` equal to the
raw sentinel `"-"`, not the empty string: the loop computes the
normalized `token` but stores `res.Fields[1]`. -/
theorem C3_code_behavior :
    Puller.ListFilesystems true [⟨[['t', 'a', 'n', 'k'], ['-']], none⟩] =
      some (.ok [⟨['t', 'a', 'n', 'k'], ['-']⟩]) ∧ (['-'] : GoStr) ≠ [] :=
  ⟨rfl, by decide⟩

theorem scanLines_append_ok (maxLen : Nat) (good rest : List GoStr)
    (h : ∀ l ∈ good, l.length ≤ maxLen) :
    scanLines maxLen (good ++ rest) =
      (good ++ (scanLines maxLen rest).1, (scanLines maxLen rest).2) := by
  induction good with
  | nil => simp
  | cons l ls ih =>
    have hl : ¬(l.length > maxLen) := by
      have := h l (by simp)
      omega
    simp only [List.cons_append, scanLines, List.append_eq, if_neg hl,
      ih (fun x hx => h x (by simp [hx]))]

theorem zfsListLoop_append_ok (n : Nat) (good rest : List GoStr)
    (h : ∀ l ∈ good, (splitNChar '\t' n l).length = n) :
    zfsListLoop n (good ++ rest) =
      (good.map (splitNChar '\t' n) ++ (zfsListLoop n rest).1,
        (zfsListLoop n rest).2) := by
  induction good with
  | nil => simp
  | cons l ls ih =>
    have hl : ¬((splitNChar '\t' n l).length ≠ n) := by
      simpa using h l (by simp)
    simp only [List.cons_append, zfsListLoop, List.append_eq, if_neg hl,
      ih (fun x hx => h x (by simp [hx])), List.map_cons]

/-- Subprocess abstraction for the C4 statements: no start failure, the
two output lines `"x<tab>y"` and `"z"`, a clean exit, empty stderr. -/
def envC4 : ProcEnv := ⟨none, [['x', '\t', 'y'], ['z']], none, []⟩

/-- C4 counterexample: with two requested properties and output lines
`"x<tab>y"` then `"z"`, the call fails with the protocol-violation
error, but the first return value is the non-empty list of rows
accumulated before the bad line — the claim that no accumulated rows
are returned as the result is false. -/
theorem C4_counterexample :
    ZFSList ["a", "b"] envC4 = ([[['x'], ['y']]], some .unexpectedOutput) ∧
    ([[['x'], ['y']]] : List (List GoStr)) ≠ [] :=
  ⟨rfl, by decide⟩

/-- C4 amended: a line that splits into a field count different from
the requested property count makes `ZFSList` fail the whole call with
the protocol-violation error, without waiting for the subprocess; the
first return value however still carries the rows parsed before the
bad line (the error travels through the named return values, `res` is
not cleared). -/
theorem C4_unexpected_output (props : List String) (env : ProcEnv)
    (good : List GoStr) (bad : GoStr) (rest : List GoStr)
    (hstart : env.startErr = none)
    (hlines : env.outputLines = good ++ bad :: rest)
    (hgood : ∀ l ∈ good, l.length ≤ 1024 ∧
      (splitNChar '\t' props.length l).length = props.length)
    (hbadlen : ¬(bad.length > 1024))
    (hbadf : (splitNChar '\t' props.length bad).length ≠ props.length) :
    ZFSList props env =
      (good.map (splitNChar '\t' props.length), some .unexpectedOutput) := by
  simp only [ZFSList, hstart, hlines]
  rw [scanLines_append_ok 1024 good (bad :: rest) (fun l hl => (hgood l hl).1)]
  simp only [scanLines, if_neg hbadlen]
  rw [zfsListLoop_append_ok props.length good _
    (fun l hl => (hgood l hl).2)]
  simp only [zfsListLoop, if_pos hbadf]
  simp

/-- C4 witness: the amended statement at the concrete input of the
counterexample environment. -/
theorem C4_witness :
    ZFSList ["a", "b"] envC4 = ([[['x'], ['y']]], some .unexpectedOutput) :=
  (C4_unexpected_output ["a", "b"] envC4 [['x', '\t', 'y']] ['z'] []
    rfl rfl (by decide) (by decide) (by decide)).trans (by decide)

/-- A stdout line of 1025 bytes, one byte longer than the scanner
buffer cap of `ZFSList`. -/
def longLine : GoStr := List.replicate 1025 'a'

/-- Subprocess abstraction for the C5 statement: the subprocess starts,
writes one 1025-byte line, and exits successfully. -/
def envC5 : ProcEnv := ⟨none, [longLine], none, []⟩

/-- C5 (code behavior): on output consisting of one line longer than
the scanner buffer, the scanner stops with its too-long error, yet
`ZFSList` — which never consults `s.Err()` — returns the truncated
(here empty) row list with no error at all: the scan error is
silently dropped. -/
theorem C5_scan_error_dropped :
    (scanLines 1024 envC5.outputLines).2 = some .tooLong ∧
    ZFSList ["name"] envC5 = ([], none) := by
  have hlen : longLine.length = 1025 := List.length_replicate 1025 'a'
  constructor
  · show (scanLines 1024 [longLine]).2 = some .tooLong
    simp only [scanLines, hlen]
    norm_num
  · show ZFSList ["name"] ⟨none, [longLine], none, []⟩ = ([], none)
    simp only [ZFSList, scanLines, hlen]
    norm_num
    rfl

end Zrepl
